import Mathlib

/-!
Shallow embedding of `github-labeller` (`src/lib/index.js`).

The program is a single callback-driven function `GitHubLabeller(labels, options,
callback)` plus two helpers `checkRepo` and `addToRepo`.  The remote GitHub
client (`gh.js`) is modelled as an oracle `Env`; every `gh.get` call is logged
in a request trace.  The `same-time` fan-out primitive is external to the
repository; its aggregation is modelled from the spec (section 4.4 and
property 7): all tasks run to completion, the callback receives the
first-encountered failure (completion order equals input order in this
deterministic model) together with the full list of per-task outcome slots.

The embedding is deterministic: "concurrent" tasks are evaluated in input
order, which is also the completion order here, so events and trace entries
appear in issue order.
-/

/-- JS `s.charAt(0)`: one-character string, or `""` on an empty string. -/
def jsCharAt0 (s : String) : String :=
  match s.toList with
  | [] => ""
  | c :: _ => String.mk [c]

/-- JS truthiness of a possibly-absent string (`undefined` and `""` are falsy). -/
def jsTruthy (o : Option String) : Bool :=
  match o with
  | none => false
  | some s => s != ""

/-- JS `a || b` on possibly-absent strings. -/
def jsOr (a b : Option String) : Option String :=
  if jsTruthy a then a else b

/-- Color normalization from the source: `color.charAt(0) === "#" ?
color.substring(1) : color` — strips at most one leading `#`. -/
def normalizeColor (color : String) : String :=
  if jsCharAt0 color = "#" then String.mk (color.toList.drop 1) else color

/-- Uppercase hexadecimal digit for `n < 16`. -/
def hexDigitChar (n : Nat) : Char :=
  if n < 10 then Char.ofNat (48 + n) else Char.ofNat (55 + n)

/-- UTF-8 byte sequence of a code point, as used by `encodeURIComponent`. -/
def utf8Bytes (n : Nat) : List Nat :=
  if n < 128 then [n]
  else if n < 2048 then [192 + n / 64, 128 + n % 64]
  else if n < 65536 then [224 + n / 4096, 128 + (n / 64) % 64, 128 + n % 64]
  else [240 + n / 262144, 128 + (n / 4096) % 64, 128 + (n / 64) % 64, 128 + n % 64]

/-- Characters `encodeURIComponent` leaves unescaped: ASCII alphanumerics and
`- _ . ! ~ * \x27 ( )` (code points 45, 95, 46, 33, 126, 42, 39, 40, 41). -/
def isUnreservedURI (c : Char) : Bool :=
  c.isAlphanum || c.toNat ∈ [45, 95, 46, 33, 126, 42, 39, 40, 41]

/-- JS `encodeURIComponent`: percent-encodes every UTF-8 byte of each reserved
character with uppercase hex digits. -/
def encodeURIComponent (s : String) : String :=
  String.mk (s.toList.foldr
    (fun c acc =>
      if isUnreservedURI c then c :: acc
      else (utf8Bytes c.toNat).foldr
        (fun b acc2 => Char.ofNat 37 :: hexDigitChar (b / 16) :: hexDigitChar (b % 16) :: acc2)
        acc)
    [])

/-- Splitting accumulator for `jsSplitSlash`. -/
def splitSlashAux : List Char → List Char → List String
  | [], acc => [String.mk acc.reverse]
  | c :: rest, acc =>
    if c = Char.ofNat 47 then String.mk acc.reverse :: splitSlashAux rest []
    else splitSlashAux rest (c :: acc)

/-- JS `s.split("/")`: always at least one segment (`"".split("/")` is `[""]`,
`"a/".split("/")` is `["a", ""]`). -/
def jsSplitSlash (s : String) : List String :=
  splitSlashAux s.toList []

/-- A label object as received from the caller or the GitHub API: any of the
`name`, `label` (alias) and `color` fields may be absent. -/
structure RawLabel where
  name : Option String := none
  label : Option String := none
  color : Option String := none
deriving DecidableEq

/-- A normalized label payload `\x7b name, color \x7d` as sent to the API. -/
structure Label where
  name : String
  color : String
deriving DecidableEq

/-- The `options` object: `repo` (target string), optional `source`, `token`. -/
structure Options where
  repo : String
  source : Option String := none
  token : String := ""
deriving DecidableEq

/-- One `gh.get` call: the endpoint string, whether the `all: true` (all pages)
option was passed, and the `data` payload for write calls. -/
structure Request where
  endpoint : String
  all : Bool
  data : Option Label
deriving DecidableEq

/-- One `"added"` event: `(owner, repo, label, err, data)`. -/
structure AddedEvent where
  owner : String
  repo : String
  label : Label
  error : Option String
  data : Option String
deriving DecidableEq

deriving instance DecidableEq for Except

/-- The `data` argument of the final callback. -/
inductive CbData where
  /-- Literal `null` (the no-op path). -/
  | null
  /-- `undefined` (error paths that pass only an error). -/
  | undef
  /-- Single-repository aggregate: one slot of write-response data per label
  (`undefined` for a failed write, since the inner task calls `done(null, data)`). -/
  | perLabel (results : List (Option String))
  /-- Multi-repository aggregate: one slot per repository, either that
  repository's per-label results or its prerequisite-fetch error. -/
  | perRepo (slots : List (Except String (List (Option String))))
deriving DecidableEq

/-- The `(error, data)` pair passed to the final callback. -/
structure CbVal where
  error : Option String
  data : CbData
deriving DecidableEq

/-- Oracle for the remote GitHub service.  Label-listing endpoints answer
differently depending on whether the `all: true` option was passed
(`labelsAll`: every page; `labelsFirst`: the client's default first page). -/
structure Env where
  labelsFirst : String → Except String (List RawLabel)
  labelsAll : String → Except String (List RawLabel)
  reposAll : String → Except String (List String)
  write : String → Label → Except String String

/-- Observable outcome of one `GitHubLabeller` invocation: the callback value
(`none` when the callback never fired), the emitted `"added"` events, the trace
of `gh.get` requests in issue order, whether a TypeError escaped, the final
state of the caller's `labels` array and `options` object, and whether the
event emitter was returned to the caller. -/
structure RunResult where
  callback : Option CbVal
  events : List AddedEvent
  trace : List Request
  crashed : Bool
  finalLabels : List RawLabel
  finalOptions : Options
  emitterReturned : Bool
deriving DecidableEq

/-- How the normalization loop stops early: a thrown TypeError
(`color.charAt` with `color` absent) or a validation error reported through
the callback. -/
inductive NormErr where
  | typeError
  | invalid (msg : String)
deriving DecidableEq

/-- Normalization of one label at index `i`, from the source: build
`\x7b name: cLabel.name || cLabel.label, color: stripped \x7d`, store it back
into the array slot, then check `!name` and `!color`.  When `color` is absent
the `charAt` call throws before the slot is written. -/
def normalizeEntry (i : Nat) (l : RawLabel) : RawLabel × Except NormErr Label :=
  match l.color with
  | none => (l, .error .typeError)
  | some c =>
    let c2 := normalizeColor c
    let n := jsOr l.name l.label
    let stored : RawLabel := ⟨n, none, some c2⟩
    match n with
    | none => (stored, .error (.invalid ("Missing name for label: " ++ toString i)))
    | some nm =>
      if nm = "" then (stored, .error (.invalid ("Missing name for label: " ++ toString i)))
      else if c2 = "" then (stored, .error (.invalid ("Missing color for label: " ++ toString i)))
      else (stored, .ok ⟨nm, c2⟩)

/-- The normalization loop over the labels array, starting at index `i`:
returns the final array contents (slots before the stopping point are
overwritten in place) and either the validated labels or the first error. -/
def normalizeLabels (i : Nat) (ls : List RawLabel) : List RawLabel × Except NormErr (List Label) :=
  match ls with
  | [] => ([], .ok [])
  | l :: rest =>
    match normalizeEntry i l with
    | (stored, .error e) => (stored :: rest, .error e)
    | (stored, .ok v) =>
      match normalizeLabels (i + 1) rest with
      | (rs, .error e) => (stored :: rs, .error e)
      | (rs, .ok vs) => (stored :: rs, .ok (v :: vs))

/-- The object a successfully normalized slot holds: a fresh
`\x7b name, color \x7d` object (the `label` alias field is gone). -/
def normalizedStored (l : RawLabel) : RawLabel :=
  ⟨jsOr l.name l.label, none, l.color.map normalizeColor⟩

/-- Error component of a write outcome (`null` on success). -/
def writeError (res : Except String String) : Option String :=
  match res with
  | .error e => some e
  | .ok _ => none

/-- Data component of a write outcome (`undefined` on failure). -/
def writeData (res : Except String String) : Option String :=
  match res with
  | .ok d => some d
  | .error _ => none

/-- `addToRepo` on a single label: choose the endpoint (the label-specific
sub-resource, name URL-encoded, when the name is among the known names;
the collection endpoint otherwise) and issue the write with the label as
the `data` payload. -/
def addToRepo (env : Env) (owner repo : String) (label : Label)
    (known : List (Option String)) : Except String String × Request :=
  let endpoint0 := "repos/" ++ owner ++ "/" ++ repo ++ "/labels"
  let endpoint :=
    if some label.name ∈ known then endpoint0 ++ "/" ++ encodeURIComponent label.name
    else endpoint0
  (env.write endpoint label, ⟨endpoint, false, some label⟩)

/-- `addToRepo` on an array of labels: each label is attempted, its completion
emits one `"added"` event `(owner, repo, label, err, data)`, and its task
reports `done(null, data)` — so the per-label fan-out never fails and the
aggregate is the list of per-label data slots. -/
def addToRepoAll (env : Env) (owner repo : String) (lbls : List Label)
    (known : List (Option String)) :
    List (Option String) × List AddedEvent × List Request :=
  match lbls with
  | [] => ([], [], [])
  | c :: rest =>
    let one := addToRepo env owner repo c known
    let res := addToRepoAll env owner repo rest known
    (writeData one.1 :: res.1,
     ⟨owner, repo, c, writeError one.1, writeData one.1⟩ :: res.2.1,
     one.2 :: res.2.2)

/-- `checkRepo`: fetch the repository's existing labels (no `all` option, so
the client's default first page), extract their names, and hand off to the
upsert step; a fetch error is reported to the per-repository callback. -/
def checkRepo (env : Env) (owner repo : String) (lbls : List Label) :
    Except String (List (Option String)) × List AddedEvent × List Request :=
  let ep := "repos/" ++ owner ++ "/" ++ repo ++ "/labels"
  let req : Request := ⟨ep, false, none⟩
  match env.labelsFirst ep with
  | .error e => (.error e, [], [req])
  | .ok existing =>
    let res := addToRepoAll env owner repo lbls (existing.map RawLabel.name)
    (.ok res.1, res.2.1, req :: res.2.2)

/-- The multi-repository fan-out body: one `checkRepo` task per listed
repository, evaluated in input order (= completion order here). -/
def runRepos (env : Env) (user : String) (repos : List String) (lbls : List Label) :
    List (Except String (List (Option String))) × List AddedEvent × List Request :=
  match repos with
  | [] => ([], [], [])
  | r :: rest =>
    let one := checkRepo env user r lbls
    let res := runRepos env user rest lbls
    (one.1 :: res.1, one.2.1 ++ res.2.1, one.2.2 ++ res.2.2)

/-- Modelled from the spec: the external `same-time` fan-out join reports the
first-encountered failure among the task outcomes as the overall error
(sections 4.4 and property 7; completion order equals input order in this
deterministic model). -/
def firstError {α : Type} : List (Except String α) → Option String
  | [] => none
  | .error e :: _ => some e
  | .ok _ :: rest => firstError rest

/-- Outcome of the no-op path: `callback(null, null)`, nothing touched,
the emitter returned. -/
def noopResult (labels : List RawLabel) (options : Options) : RunResult :=
  ⟨some ⟨none, .null⟩, [], [], false, labels, options, true⟩

/-- The pipeline after the source step: normalize the labels array in place,
parse the target, then either one direct `checkRepo` (two `/`-segments with a
truthy second segment) or a repository listing followed by a per-repository
fan-out. -/
def runCore (env : Env) (labels : List RawLabel) (options : Options) : RunResult :=
  match normalizeLabels 0 labels with
  | (stored, .error .typeError) => ⟨none, [], [], true, stored, options, false⟩
  | (stored, .error (.invalid msg)) =>
    ⟨some ⟨some msg, .undef⟩, [], [], false, stored, options, true⟩
  | (stored, .ok nlbls) =>
    let splits := jsSplitSlash options.repo
    let user := if splits.length = 2 then splits.getD 0 "" else options.repo
    let repo1 : Option String :=
      if splits.length = 2 then some (splits.getD 1 "") else none
    if jsTruthy repo1 then
      match checkRepo env user (repo1.getD "") nlbls with
      | (.error e, evs, reqs) => ⟨some ⟨some e, .undef⟩, evs, reqs, false, stored, options, true⟩
      | (.ok rs, evs, reqs) =>
        ⟨some ⟨none, .perLabel rs⟩, evs, reqs, false, stored, options, true⟩
    else
      let ep := "users/" ++ user ++ "/repos"
      match env.reposAll ep with
      | .error e => ⟨some ⟨some e, .undef⟩, [], [⟨ep, true, none⟩], false, stored, options, true⟩
      | .ok repos =>
        let res := runRepos env user repos nlbls
        ⟨some ⟨firstError res.1, .perRepo res.1⟩, res.2.1, ⟨ep, true, none⟩ :: res.2.2,
         false, stored, options, true⟩

/-- Re-entry of `GitHubLabeller` after the source step deleted `options.source`:
the guard reduces to the emptiness check, then the core pipeline runs. -/
def runChecked (env : Env) (labels : List RawLabel) (options : Options) : RunResult :=
  if labels.isEmpty then noopResult labels options else runCore env labels options

/-- `GitHubLabeller(labels, options, callback)`: the no-op guard, then the
source-label fetch (all pages) with in-place `delete options.source`, label
concatenation and recursive re-entry (with `"added"` events forwarded to the
originally returned emitter), or directly the core pipeline. -/
def run (env : Env) (labels : List RawLabel) (options : Options) : RunResult :=
  if labels.isEmpty && !jsTruthy options.source then noopResult labels options
  else if jsTruthy options.source then
    let src := options.source.getD ""
    let ep := "repos/" ++ src ++ "/labels"
    match env.labelsAll ep with
    | .error e => ⟨some ⟨some e, .undef⟩, [], [⟨ep, true, none⟩], false, labels, options, true⟩
    | .ok lbls =>
      let options2 : Options := { options with source := none }
      let inner := runChecked env (labels ++ lbls) options2
      ⟨inner.callback, inner.events, ⟨ep, true, none⟩ :: inner.trace, inner.crashed,
       labels, options2, true⟩
  else runCore env labels options

theorem addToRepoAll_eq (env : Env) (owner repo : String) (lbls : List Label)
    (known : List (Option String)) :
    addToRepoAll env owner repo lbls known =
      (lbls.map (fun c => writeData (addToRepo env owner repo c known).1),
       lbls.map (fun c =>
         ⟨owner, repo, c, writeError (addToRepo env owner repo c known).1,
          writeData (addToRepo env owner repo c known).1⟩),
       lbls.map (fun c => (addToRepo env owner repo c known).2)) := by
  induction lbls with
  | nil => rfl
  | cons c rest ih => simp [addToRepoAll, ih]

theorem normalizeEntry_ok (i : Nat) (l : RawLabel) (st : RawLabel) (v : Label)
    (h : normalizeEntry i l = (st, .ok v)) : st = normalizedStored l := by
  unfold normalizeEntry at h
  unfold normalizedStored
  rcases l with ⟨n, a, c⟩
  rcases c with _ | c
  · simp at h
  · simp only [Option.map_some] at *
    rcases hn : jsOr n a with _ | nm <;> simp only [hn] at h
    · simp at h
    · split at h <;> simp_all
      split at h <;> simp_all

theorem normalizeLabels_ok (i : Nat) (ls : List RawLabel) (st : List RawLabel)
    (vs : List Label) (h : normalizeLabels i ls = (st, .ok vs)) :
    st = ls.map normalizedStored ∧ vs.length = ls.length := by
  induction ls generalizing i st vs with
  | nil =>
    unfold normalizeLabels at h
    simp_all
  | cons l rest ih =>
    unfold normalizeLabels at h
    rcases he : normalizeEntry i l with ⟨stored, r⟩
    rcases r with e | v
    · simp [he] at h
    · rcases hr : normalizeLabels (i + 1) rest with ⟨rs, rr⟩
      rcases rr with e | ws
      · simp [he, hr] at h
      · simp only [he, hr, Prod.mk.injEq, Except.ok.injEq] at h
        obtain ⟨h1, h2⟩ := h
        obtain ⟨hst, hlen⟩ := ih (i + 1) rs ws hr
        subst h1 h2
        simp_all [normalizeEntry_ok i l stored v he]

theorem runCore_frame (env : Env) (labels : List RawLabel) (options : Options) :
    (runCore env labels options).finalLabels = (normalizeLabels 0 labels).1 ∧
    (runCore env labels options).finalOptions = options := by
  unfold runCore
  rcases h : normalizeLabels 0 labels with ⟨stored, res⟩
  rcases res with e | vs
  · rcases e <;> exact ⟨rfl, rfl⟩
  · dsimp only
    constructor <;> (repeat' split) <;> rfl

def envC1 : Env :=
  { labelsFirst := fun _ => .ok [⟨some "bug", none, some "ff0000"⟩]
  , labelsAll := fun _ => .ok []
  , reposAll := fun _ => .ok []
  , write := fun _ _ => .ok "d" }

/-- C1: with the repository's existing labels fetched, every requested label's
upsert call targets the label-specific sub-resource with the name URL-encoded
when the label's name is among the fetched names, and the collection endpoint
when it is absent; in both cases the request carries the normalized
(name, color) object as its payload. -/
theorem c1_upsert_routing (env : Env) (owner repo : String) (lbls : List Label)
    (existing : List RawLabel)
    (hfetch : env.labelsFirst ("repos/" ++ owner ++ "/" ++ repo ++ "/labels") = .ok existing) :
    (checkRepo env owner repo lbls).2.2 =
      ⟨"repos/" ++ owner ++ "/" ++ repo ++ "/labels", false, none⟩ ::
      lbls.map (fun l =>
        ⟨if some l.name ∈ existing.map RawLabel.name then
            "repos/" ++ owner ++ "/" ++ repo ++ "/labels" ++ "/" ++ encodeURIComponent l.name
          else "repos/" ++ owner ++ "/" ++ repo ++ "/labels",
         false, some l⟩) := by
  simp only [checkRepo, hfetch, addToRepoAll_eq]
  simp [addToRepo]

/-- C1 witness: a repository whose first page of existing labels holds `bug`
routes `bug` to the encoded sub-resource endpoint and `feat` to the collection
endpoint, each with its own payload. -/
theorem c1_witness :
    (checkRepo envC1 "acme" "w" [⟨"bug", "f00"⟩, ⟨"feat", "0f0"⟩]).2.2 =
      [⟨"repos/acme/w/labels", false, none⟩,
       ⟨"repos/acme/w/labels/bug", false, some ⟨"bug", "f00"⟩⟩,
       ⟨"repos/acme/w/labels", false, some ⟨"feat", "0f0"⟩⟩] := by
  rw [c1_upsert_routing envC1 "acme" "w" [⟨"bug", "f00"⟩, ⟨"feat", "0f0"⟩]
    [⟨some "bug", none, some "ff0000"⟩] rfl]
  decide

/-- C6: a label with an absent `color` field makes the normalization loop throw
a TypeError (`charAt` of `undefined`) before its own missing-color check runs,
so the run crashes without ever invoking the callback — the descriptive
validation error the code prepares for this case is unreachable — although no
network call occurs; an empty-string color, by contrast, does reach the
intended callback error. -/
theorem c6_missing_color_crashes (env : Env) :
    (run env [⟨some "bug", none, none⟩] ⟨"o/r", none, ""⟩).crashed = true ∧
    (run env [⟨some "bug", none, none⟩] ⟨"o/r", none, ""⟩).callback = none ∧
    (run env [⟨some "bug", none, none⟩] ⟨"o/r", none, ""⟩).trace = [] ∧
    (run env [⟨some "bug", none, none⟩] ⟨"o/r", none, ""⟩).emitterReturned = false ∧
    (run env [⟨some "bug", none, some ""⟩] ⟨"o/r", none, ""⟩).callback =
      some ⟨some "Missing color for label: 0", .undef⟩ := by
  exact ⟨rfl, rfl, rfl, rfl, rfl⟩

/-- C7: a request with an empty labels array and no source repository fires the
callback once with `(null, null)`, makes no network call, emits no event, and
still returns the event emitter. -/
theorem c7_noop_request (env : Env) (labels : List RawLabel) (options : Options)
    (h1 : labels = []) (h2 : jsTruthy options.source = false) :
    (run env labels options).callback = some ⟨none, .null⟩ ∧
    (run env labels options).trace = [] ∧
    (run env labels options).events = [] ∧
    (run env labels options).emitterReturned = true := by
  subst h1
  simp [run, h2, noopResult]

/-- C7 witness: the empty request against a concrete environment. -/
theorem c7_witness :
    (run envC1 [] ⟨"acme", none, ""⟩).callback = some ⟨none, .null⟩ ∧
    (run envC1 [] ⟨"acme", none, ""⟩).trace = [] ∧
    (run envC1 [] ⟨"acme", none, ""⟩).events = [] ∧
    (run envC1 [] ⟨"acme", none, ""⟩).emitterReturned = true :=
  c7_noop_request envC1 [] ⟨"acme", none, ""⟩ rfl rfl

/-- C8 counterexample: color normalization is not idempotent on every string —
on `"##ab"` one application yields `"#ab"`, a second application yields `"ab"`. -/
theorem c8_counterexample :
    normalizeColor (normalizeColor "##ab") ≠ normalizeColor "##ab" := by
  decide

/-- C8 amended: normalization strips at most one leading `#` (its definitional
characterization); a color with a leading `#` and the same remaining characters
without one normalize to the identical value whenever those characters do not
themselves start with `#` (every hex-digit color qualifies); and normalizing
twice equals normalizing once for every string whose single-strip result does
not still start with `#` — equivalently, every string not starting with `##`
(idempotence fails on such strings, see the counterexample). -/
theorem c8_amended (s t : String)
    (ht : jsCharAt0 t ≠ "#")
    (hs : jsCharAt0 (normalizeColor s) ≠ "#") :
    (normalizeColor s = if jsCharAt0 s = "#" then String.mk (s.toList.drop 1) else s) ∧
    normalizeColor ("#" ++ t) = normalizeColor t ∧
    normalizeColor (normalizeColor s) = normalizeColor s := by
  refine ⟨rfl, ?_, ?_⟩
  · have hd : ("#" ++ t).toList = Char.ofNat 35 :: t.toList := by
      have h2 : ("#" ++ t).data = "#".data ++ t.data := String.data_append "#" t
      simp [String.toList, h2]
    rw [normalizeColor, normalizeColor, if_neg ht]
    rw [jsCharAt0, hd]
    simp only [List.drop_succ_cons, List.drop_zero]
    rw [if_pos (by decide)]
    exact String.ext rfl
  · rw [normalizeColor, if_neg hs]

def envC3 : Env :=
  { labelsFirst := fun _ => .ok []
  , labelsAll := fun _ => .ok []
  , reposAll := fun _ => .ok []
  , write := fun _ _ => .error "boom" }

/-- C3 counterexample: with a single label whose write call fails with "boom",
the `"added"` event does carry the error, but the aggregated per-label result
delivered to the repository's callback does not — the callback receives a null
error and an undefined data slot, because the inner task completes with
`done(null, data)`.  This refutes the claim's final conjunct that each
per-label write error is folded into the aggregated result. -/
theorem c3_counterexample :
    (run envC3 [⟨some "bug", none, some "f00"⟩] ⟨"acme/w", none, ""⟩).events =
      [⟨"acme", "w", ⟨"bug", "f00"⟩, some "boom", none⟩] ∧
    (run envC3 [⟨some "bug", none, some "f00"⟩] ⟨"acme/w", none, ""⟩).callback =
      some ⟨none, .perLabel [none]⟩ := by
  exact ⟨rfl, rfl⟩

/-- C3 amended: when the upsert step is given an array of labels, every label's
attempt emits exactly one `"added"` event with payload (owner, repo, label,
error, data), error null exactly on success; a failing label does not cancel
sibling labels (each label's write request is issued); and the repository's
callback receives a null error together with the per-label data slots — a
failed label's slot holds its undefined data, the write error itself being
surfaced only through the event, not through the aggregated result. -/
theorem c3_amended (env : Env) (owner repo : String) (lbls : List Label)
    (existing : List RawLabel)
    (hfetch : env.labelsFirst ("repos/" ++ owner ++ "/" ++ repo ++ "/labels") = .ok existing) :
    (checkRepo env owner repo lbls).2.1 =
      lbls.map (fun c =>
        ⟨owner, repo, c,
         writeError (addToRepo env owner repo c (existing.map RawLabel.name)).1,
         writeData (addToRepo env owner repo c (existing.map RawLabel.name)).1⟩) ∧
    (checkRepo env owner repo lbls).1 =
      .ok (lbls.map (fun c =>
        writeData (addToRepo env owner repo c (existing.map RawLabel.name)).1)) ∧
    (checkRepo env owner repo lbls).2.2 =
      ⟨"repos/" ++ owner ++ "/" ++ repo ++ "/labels", false, none⟩ ::
        lbls.map (fun c => (addToRepo env owner repo c (existing.map RawLabel.name)).2) := by
  simp [checkRepo, hfetch, addToRepoAll_eq]

/-- C3 witness: two labels against a repository where the write of the first
fails and of the second succeeds — one event each, errors only in the events,
the callback aggregate holding only the data slots. -/
theorem c3_witness :
    (checkRepo envC3 "acme" "w" [⟨"bug", "f00"⟩, ⟨"feat", "0f0"⟩]).2.1 =
      [⟨"acme", "w", ⟨"bug", "f00"⟩, some "boom", none⟩,
       ⟨"acme", "w", ⟨"feat", "0f0"⟩, some "boom", none⟩] ∧
    (checkRepo envC3 "acme" "w" [⟨"bug", "f00"⟩, ⟨"feat", "0f0"⟩]).1 =
      .ok [none, none] := by
  have h := c3_amended envC3 "acme" "w" [⟨"bug", "f00"⟩, ⟨"feat", "0f0"⟩] [] rfl
  exact ⟨by rw [h.1]; rfl, by rw [h.2.1]; rfl⟩

theorem run_no_source (env : Env) (labels : List RawLabel) (options : Options)
    (hne : labels.isEmpty = false) (hsrc : jsTruthy options.source = false) :
    run env labels options = runCore env labels options := by
  unfold run
  simp [hne, hsrc]

theorem checkRepo_fetch_mem (env : Env) (owner repo : String) (lbls : List Label) :
    (⟨"repos/" ++ owner ++ "/" ++ repo ++ "/labels", false, none⟩ : Request) ∈
      (checkRepo env owner repo lbls).2.2 := by
  unfold checkRepo
  rcases h : env.labelsFirst ("repos/" ++ owner ++ "/" ++ repo ++ "/labels") with e | existing <;>
    simp [h]

theorem checkRepo_trace_all_false (env : Env) (owner repo : String) (lbls : List Label) :
    ∀ req ∈ (checkRepo env owner repo lbls).2.2, req.all = false := by
  intro req hreq
  unfold checkRepo at hreq
  rcases h : env.labelsFirst ("repos/" ++ owner ++ "/" ++ repo ++ "/labels") with e | existing <;>
    simp only [h, addToRepoAll_eq, List.mem_cons, List.mem_singleton, List.mem_map,
      List.not_mem_nil, or_false] at hreq
  · subst hreq; rfl
  · rcases hreq with h1 | ⟨c, _, h2⟩
    · subst h1; rfl
    · subst h2; rfl

theorem runRepos_fetch_mem (env : Env) (user : String) (repos : List String)
    (lbls : List Label) (r : String) (hr : r ∈ repos) :
    (⟨"repos/" ++ user ++ "/" ++ r ++ "/labels", false, none⟩ : Request) ∈
      (runRepos env user repos lbls).2.2 := by
  induction repos with
  | nil => simp at hr
  | cons a rest ih =>
    have hsplit2 : (runRepos env user (a :: rest) lbls).2.2 =
        (checkRepo env user a lbls).2.2 ++ (runRepos env user rest lbls).2.2 := rfl
    rw [hsplit2]
    rcases List.mem_cons.mp hr with rfl | h
    · exact List.mem_append.mpr (Or.inl (checkRepo_fetch_mem env user _ lbls))
    · exact List.mem_append.mpr (Or.inr (ih h))

def envC5 : Env :=
  { labelsFirst := fun _ => .ok []
  , labelsAll := fun _ => .ok []
  , reposAll := fun _ => .ok []
  , write := fun _ _ => .ok "d" }

/-- C5 counterexample: the target `"a/"` splits on `"/"` into exactly two
segments, yet the run issues a repository-listing call (for owner `"a"`, not
even the raw string `"a/"`), refuting the claim that every two-segment split is
processed directly with no repository-listing call. -/
theorem c5_counterexample :
    (jsSplitSlash "a/").length = 2 ∧
    (run envC5 [⟨some "bug", none, some "f00"⟩] ⟨"a/", none, ""⟩).trace =
      [⟨"users/a/repos", true, none⟩] := by
  exact ⟨rfl, rfl⟩

/-- C5 amended: splitting the target on "/" into exactly two segments with a
non-empty second segment yields an explicit (owner, repo) pair processed
directly — the trace is exactly that one repository's reconciliation trace and
contains no all-pages request, hence no repository listing; a segment count
other than two is owner-only using the raw target string: one
repository-listing request followed by the per-repository fan-out, with every
returned repository's label fetch issued; but a two-segment target whose
second segment is empty (such as "a/") is not processed directly — it falls
into the owner-only path using the first segment, issuing a listing call (see
the counterexample). -/
theorem c5_amended (env : Env) (labels : List RawLabel) (options : Options)
    (stored : List RawLabel) (nlbls : List Label)
    (hne : labels.isEmpty = false)
    (hsrc : jsTruthy options.source = false)
    (hnorm : normalizeLabels 0 labels = (stored, .ok nlbls)) :
    ((jsSplitSlash options.repo).length = 2 →
      (jsSplitSlash options.repo).getD 1 "" ≠ "" →
      (run env labels options).trace =
        (checkRepo env ((jsSplitSlash options.repo).getD 0 "")
          ((jsSplitSlash options.repo).getD 1 "") nlbls).2.2 ∧
      ∀ req ∈ (run env labels options).trace, req.all = false) ∧
    ((jsSplitSlash options.repo).length ≠ 2 →
      ∀ rs, env.reposAll ("users/" ++ options.repo ++ "/repos") = .ok rs →
        (run env labels options).trace =
          ⟨"users/" ++ options.repo ++ "/repos", true, none⟩ ::
            (runRepos env options.repo rs nlbls).2.2 ∧
        ∀ r ∈ rs,
          (⟨"repos/" ++ options.repo ++ "/" ++ r ++ "/labels", false, none⟩ : Request) ∈
            (run env labels options).trace) ∧
    ((jsSplitSlash options.repo).length = 2 →
      (jsSplitSlash options.repo).getD 1 "" = "" →
      ∀ rs,
        env.reposAll ("users/" ++ (jsSplitSlash options.repo).getD 0 "" ++ "/repos") = .ok rs →
        (run env labels options).trace =
          ⟨"users/" ++ (jsSplitSlash options.repo).getD 0 "" ++ "/repos", true, none⟩ ::
            (runRepos env ((jsSplitSlash options.repo).getD 0 "") rs nlbls).2.2) := by
  rw [run_no_source env labels options hne hsrc]
  refine ⟨?_, ?_, ?_⟩
  · intro h2 htr
    have hj : jsTruthy (some ((jsSplitSlash options.repo).getD 1 "")) = true := by
      show ((jsSplitSlash options.repo).getD 1 "" != "") = true
      exact bne_iff_ne.mpr htr
    have htrace : (runCore env labels options).trace =
        (checkRepo env ((jsSplitSlash options.repo).getD 0 "")
          ((jsSplitSlash options.repo).getD 1 "") nlbls).2.2 := by
      unfold runCore
      rw [hnorm]
      dsimp only
      rw [if_pos h2, if_pos h2, if_pos hj, Option.getD_some]
      rcases checkRepo env ((jsSplitSlash options.repo).getD 0 "")
          ((jsSplitSlash options.repo).getD 1 "") nlbls with ⟨res, evs, reqs⟩
      rcases res with e | rs <;> rfl
    refine ⟨htrace, ?_⟩
    rw [htrace]
    exact checkRepo_trace_all_false env _ _ nlbls
  · intro hn2 rs hlist
    have hj : ¬ jsTruthy (none : Option String) = true := by decide
    have htrace : (runCore env labels options).trace =
        ⟨"users/" ++ options.repo ++ "/repos", true, none⟩ ::
          (runRepos env options.repo rs nlbls).2.2 := by
      unfold runCore
      rw [hnorm]
      dsimp only
      rw [if_neg hn2, if_neg hn2, if_neg hj, hlist]
    refine ⟨htrace, ?_⟩
    intro r hr
    rw [htrace]
    exact List.mem_cons.mpr (Or.inr (runRepos_fetch_mem env options.repo rs nlbls r hr))
  · intro h2 hse rs hlist
    have hj : ¬ jsTruthy (some ((jsSplitSlash options.repo).getD 1 "")) = true := by
      rw [hse]
      decide
    unfold runCore
    rw [hnorm]
    dsimp only
    rw [if_pos h2, if_pos h2, if_neg hj, hlist]

/-- C5 witness: `"acme/w"` is processed directly (trace is the one repository's
reconciliation trace), while `"acme"` issues exactly the repository-listing
call (the environment owns no repositories). -/
theorem c5_witness :
    (run envC5 [⟨some "bug", none, some "f00"⟩] ⟨"acme/w", none, ""⟩).trace =
      (checkRepo envC5 "acme" "w" [⟨"bug", "f00"⟩]).2.2 ∧
    (run envC5 [⟨some "bug", none, some "f00"⟩] ⟨"acme", none, ""⟩).trace =
      [⟨"users/acme/repos", true, none⟩] := by
  constructor
  · exact ((c5_amended envC5 [⟨some "bug", none, some "f00"⟩] ⟨"acme/w", none, ""⟩
      [⟨some "bug", none, some "f00"⟩] [⟨"bug", "f00"⟩] rfl rfl rfl).1
      (by decide) (by decide)).1
  · exact ((c5_amended envC5 [⟨some "bug", none, some "f00"⟩] ⟨"acme", none, ""⟩
      [⟨some "bug", none, some "f00"⟩] [⟨"bug", "f00"⟩] rfl rfl rfl).2.1
      (by decide) [] rfl).1

/-- C2: in a multi-repository fan-out (owner-only target), when the middle
repository's existing-labels fetch fails while its siblings' fetches succeed,
both siblings' label upserts still run — every one of their write requests is
issued and their per-label results fill their slots of the aggregated result
passed to the callback — while the failing repository's slot carries its
error, which (being the only failure) is also the first-encountered failure
reported as the callback's error.  The fan-out join (`same-time`) is modelled
from the spec, sections 4.4 and 8, property 7. -/
theorem c2_sibling_repos_survive (env : Env) (labels : List RawLabel) (options : Options)
    (stored : List RawLabel) (nlbls : List Label) (a b c eB : String)
    (exA exC : List RawLabel)
    (hne : labels.isEmpty = false)
    (hsrc : jsTruthy options.source = false)
    (hnorm : normalizeLabels 0 labels = (stored, .ok nlbls))
    (hsplit : (jsSplitSlash options.repo).length ≠ 2)
    (hlist : env.reposAll ("users/" ++ options.repo ++ "/repos") = .ok [a, b, c])
    (hA : env.labelsFirst ("repos/" ++ options.repo ++ "/" ++ a ++ "/labels") = .ok exA)
    (hB : env.labelsFirst ("repos/" ++ options.repo ++ "/" ++ b ++ "/labels") = .error eB)
    (hC : env.labelsFirst ("repos/" ++ options.repo ++ "/" ++ c ++ "/labels") = .ok exC) :
    (run env labels options).callback =
      some ⟨some eB, .perRepo
        [.ok (addToRepoAll env options.repo a nlbls (exA.map RawLabel.name)).1,
         .error eB,
         .ok (addToRepoAll env options.repo c nlbls (exC.map RawLabel.name)).1]⟩ ∧
    (∀ req ∈ (addToRepoAll env options.repo a nlbls (exA.map RawLabel.name)).2.2,
      req ∈ (run env labels options).trace) ∧
    (∀ req ∈ (addToRepoAll env options.repo c nlbls (exC.map RawLabel.name)).2.2,
      req ∈ (run env labels options).trace) := by
  rw [run_no_source env labels options hne hsrc]
  have hj : ¬ jsTruthy (none : Option String) = true := by decide
  have hcore : runCore env labels options =
      ⟨some ⟨firstError (runRepos env options.repo [a, b, c] nlbls).1,
         .perRepo (runRepos env options.repo [a, b, c] nlbls).1⟩,
       (runRepos env options.repo [a, b, c] nlbls).2.1,
       ⟨"users/" ++ options.repo ++ "/repos", true, none⟩ ::
         (runRepos env options.repo [a, b, c] nlbls).2.2,
       false, stored, options, true⟩ := by
    unfold runCore
    rw [hnorm]
    dsimp only
    rw [if_neg hsplit, if_neg hsplit, if_neg hj, hlist]
  have hcaV : (checkRepo env options.repo a nlbls).1 =
      .ok (addToRepoAll env options.repo a nlbls (exA.map RawLabel.name)).1 := by
    simp [checkRepo, hA]
  have hcbV : (checkRepo env options.repo b nlbls).1 = .error eB := by
    simp [checkRepo, hB]
  have hccV : (checkRepo env options.repo c nlbls).1 =
      .ok (addToRepoAll env options.repo c nlbls (exC.map RawLabel.name)).1 := by
    simp [checkRepo, hC]
  have hca : (checkRepo env options.repo a nlbls).2.2 =
      ⟨"repos/" ++ options.repo ++ "/" ++ a ++ "/labels", false, none⟩ ::
        (addToRepoAll env options.repo a nlbls (exA.map RawLabel.name)).2.2 := by
    simp [checkRepo, hA]
  have hcc : (checkRepo env options.repo c nlbls).2.2 =
      ⟨"repos/" ++ options.repo ++ "/" ++ c ++ "/labels", false, none⟩ ::
        (addToRepoAll env options.repo c nlbls (exC.map RawLabel.name)).2.2 := by
    simp [checkRepo, hC]
  have hslots : (runRepos env options.repo [a, b, c] nlbls).1 =
      [(checkRepo env options.repo a nlbls).1, (checkRepo env options.repo b nlbls).1,
       (checkRepo env options.repo c nlbls).1] := rfl
  have htrace : (runRepos env options.repo [a, b, c] nlbls).2.2 =
      (checkRepo env options.repo a nlbls).2.2 ++
        ((checkRepo env options.repo b nlbls).2.2 ++
          ((checkRepo env options.repo c nlbls).2.2 ++ [])) := rfl
  refine ⟨?_, ?_, ?_⟩
  · rw [hcore]
    dsimp only
    rw [hslots, hcaV, hcbV, hccV]
    rfl
  · intro req hreq
    rw [hcore]
    dsimp only
    rw [htrace, hca]
    exact List.mem_cons.mpr (Or.inr (List.mem_append.mpr (Or.inl
      (List.mem_cons.mpr (Or.inr hreq)))))
  · intro req hreq
    rw [hcore]
    dsimp only
    rw [htrace, hcc]
    exact List.mem_cons.mpr (Or.inr (List.mem_append.mpr (Or.inr
      (List.mem_append.mpr (Or.inr (List.mem_append.mpr (Or.inl
        (List.mem_cons.mpr (Or.inr hreq)))))))))

def envC2 : Env :=
  { labelsFirst := fun ep => if ep = "repos/acme/beta/labels" then .error "boom" else .ok []
  , labelsAll := fun _ => .ok []
  , reposAll := fun _ => .ok ["alpha", "beta", "gamma"]
  , write := fun _ _ => .ok "w" }

/-- C2 witness: owner `acme` with repositories alpha, beta, gamma, where beta's
label fetch fails — the callback reports beta's error while alpha's and
gamma's label results occupy their slots. -/
theorem c2_witness :
    (run envC2 [⟨some "bug", none, some "f00"⟩] ⟨"acme", none, ""⟩).callback =
      some ⟨some "boom", .perRepo [.ok [some "w"], .error "boom", .ok [some "w"]]⟩ := by
  have h := (c2_sibling_repos_survive envC2 [⟨some "bug", none, some "f00"⟩]
    ⟨"acme", none, ""⟩ [⟨some "bug", none, some "f00"⟩] [⟨"bug", "f00"⟩]
    "alpha" "beta" "gamma" "boom" [] []
    rfl rfl rfl (by decide) rfl rfl rfl rfl).1
  rw [h]
  rfl

/-- C4: with a truthy source repository, the source's labels are fetched (all
pages), appended after the explicitly provided labels with no deduplication by
name, the source field is deleted from the options object, and the whole
pipeline re-runs on the merged list; the re-run's callback, events and crash
behaviour are exactly those of the original call (events are forwarded to the
originally returned emitter), so each duplicate-named label yields its own
apply attempt and its own `"added"` event — with a single-repository target
whose label fetch succeeds, the run emits exactly one event per merged label,
explicit plus sourced. -/
theorem c4_source_merge (env : Env) (labels fetched : List RawLabel) (options : Options)
    (src : String)
    (hsrc : options.source = some src) (hnz : src ≠ "")
    (hfetch : env.labelsAll ("repos/" ++ src ++ "/labels") = .ok fetched) :
    run env labels options =
      ⟨(runChecked env (labels ++ fetched) { options with source := none }).callback,
       (runChecked env (labels ++ fetched) { options with source := none }).events,
       ⟨"repos/" ++ src ++ "/labels", true, none⟩ ::
         (runChecked env (labels ++ fetched) { options with source := none }).trace,
       (runChecked env (labels ++ fetched) { options with source := none }).crashed,
       labels, { options with source := none }, true⟩ ∧
    (∀ stored nlbls owner repo existing,
      normalizeLabels 0 (labels ++ fetched) = (stored, .ok nlbls) →
      (jsSplitSlash options.repo).length = 2 →
      (jsSplitSlash options.repo).getD 0 "" = owner →
      (jsSplitSlash options.repo).getD 1 "" = repo →
      repo ≠ "" →
      env.labelsFirst ("repos/" ++ owner ++ "/" ++ repo ++ "/labels") = .ok existing →
      (run env labels options).events.length = labels.length + fetched.length) := by
  have hts : jsTruthy options.source = true := by
    rw [hsrc]
    exact bne_iff_ne.mpr hnz
  have hrun : run env labels options =
      ⟨(runChecked env (labels ++ fetched) { options with source := none }).callback,
       (runChecked env (labels ++ fetched) { options with source := none }).events,
       ⟨"repos/" ++ src ++ "/labels", true, none⟩ ::
         (runChecked env (labels ++ fetched) { options with source := none }).trace,
       (runChecked env (labels ++ fetched) { options with source := none }).crashed,
       labels, { options with source := none }, true⟩ := by
    unfold run
    rw [hts, hsrc]
    dsimp only [Option.getD_some]
    rw [if_neg (by simp), if_pos rfl, hfetch]
  refine ⟨hrun, ?_⟩
  intro stored nlbls owner repo existing hnorm2 h2 ho hr hnz2 hex
  rw [hrun]
  dsimp only
  unfold runChecked
  by_cases hemp : (labels ++ fetched).isEmpty
  · rw [if_pos hemp]
    simp only [List.isEmpty_iff, List.append_eq_nil] at hemp
    obtain ⟨hl, hf⟩ := hemp
    subst hl hf
    rfl
  · rw [if_neg hemp]
    have hj : jsTruthy (some repo) = true := bne_iff_ne.mpr hnz2
    have hev : (runCore env (labels ++ fetched) { options with source := none }).events =
        (checkRepo env owner repo nlbls).2.1 := by
      unfold runCore
      rw [hnorm2]
      dsimp only
      rw [if_pos h2, if_pos h2, ho, hr, if_pos hj, Option.getD_some]
      rcases checkRepo env owner repo nlbls with ⟨res, evs, reqs⟩
      rcases res with e | rs <;> rfl
    rw [hev]
    have hevlist : (checkRepo env owner repo nlbls).2.1 =
        nlbls.map (fun c =>
          ⟨owner, repo, c,
           writeError (addToRepo env owner repo c (existing.map RawLabel.name)).1,
           writeData (addToRepo env owner repo c (existing.map RawLabel.name)).1⟩) := by
      simp [checkRepo, hex, addToRepoAll_eq]
    rw [hevlist, List.length_map]
    rw [(normalizeLabels_ok 0 (labels ++ fetched) stored nlbls hnorm2).2]
    exact List.length_append labels fetched

def envC4 : Env :=
  { labelsFirst := fun _ => .ok []
  , labelsAll := fun _ =>
      .ok [⟨some "bug", none, some "00f"⟩, ⟨some "feat", none, some "0f0"⟩]
  , reposAll := fun _ => .ok []
  , write := fun _ _ => .ok "w" }

/-- C4 witness: explicit `bug` plus a source exposing `bug` and `feat` yields
three label-apply attempts — three `"added"` events — and the source field is
cleared from the options object. -/
theorem c4_witness :
    (run envC4 [⟨some "bug", none, some "f00"⟩] ⟨"acme/w", some "acme/src", ""⟩).events.length =
      1 + 2 ∧
    (run envC4 [⟨some "bug", none, some "f00"⟩] ⟨"acme/w", some "acme/src", ""⟩).finalOptions =
      ⟨"acme/w", none, ""⟩ := by
  have h := c4_source_merge envC4 [⟨some "bug", none, some "f00"⟩]
    [⟨some "bug", none, some "00f"⟩, ⟨some "feat", none, some "0f0"⟩]
    ⟨"acme/w", some "acme/src", ""⟩ "acme/src" rfl (by decide) rfl
  constructor
  · exact h.2
      [⟨some "bug", none, some "f00"⟩, ⟨some "bug", none, some "00f"⟩,
       ⟨some "feat", none, some "0f0"⟩]
      [⟨"bug", "f00"⟩, ⟨"bug", "00f"⟩, ⟨"feat", "0f0"⟩]
      "acme" "w" [] rfl (by decide) rfl rfl (by decide) rfl
  · rw [h.1]

/-- C9: the Reconciler's existing-labels fetch is issued without the all-pages
option — its request carries `all = false`, and on success the whole
reconciliation (known names driving create-vs-update) is computed from the
client's default first page — while the source-label fetch and the owner's
repository-listing request both carry `all = true`. -/
theorem c9_pagination (env : Env) (owner repo : String) (lbls : List Label)
    (labels : List RawLabel) (options : Options) (src : String) :
    ((checkRepo env owner repo lbls).2.2.head? =
      some ⟨"repos/" ++ owner ++ "/" ++ repo ++ "/labels", false, none⟩) ∧
    (∀ existing,
      env.labelsFirst ("repos/" ++ owner ++ "/" ++ repo ++ "/labels") = .ok existing →
      checkRepo env owner repo lbls =
        (.ok (addToRepoAll env owner repo lbls (existing.map RawLabel.name)).1,
         (addToRepoAll env owner repo lbls (existing.map RawLabel.name)).2.1,
         ⟨"repos/" ++ owner ++ "/" ++ repo ++ "/labels", false, none⟩ ::
           (addToRepoAll env owner repo lbls (existing.map RawLabel.name)).2.2)) ∧
    (options.source = some src → src ≠ "" →
      (run env labels options).trace.head? =
        some ⟨"repos/" ++ src ++ "/labels", true, none⟩) ∧
    (jsTruthy options.source = false → labels.isEmpty = false →
      ∀ stored nlbls, normalizeLabels 0 labels = (stored, .ok nlbls) →
        (jsSplitSlash options.repo).length ≠ 2 →
        (run env labels options).trace.head? =
          some ⟨"users/" ++ options.repo ++ "/repos", true, none⟩) := by
  refine ⟨?_, ?_, ?_, ?_⟩
  · unfold checkRepo
    rcases h : env.labelsFirst ("repos/" ++ owner ++ "/" ++ repo ++ "/labels") with e | ex <;>
      simp [h]
  · intro existing hex
    simp [checkRepo, hex]
  · intro hs hnz
    have hts : jsTruthy options.source = true := by
      rw [hs]
      exact bne_iff_ne.mpr hnz
    unfold run
    rw [hts, hs]
    dsimp only [Option.getD_some]
    rw [if_neg (by simp), if_pos rfl]
    rcases env.labelsAll ("repos/" ++ src ++ "/labels") with e | lbls2 <;> rfl
  · intro hsf hne stored nlbls hnorm hn2
    rw [run_no_source env labels options hne hsf]
    have hj : ¬ jsTruthy (none : Option String) = true := by decide
    unfold runCore
    rw [hnorm]
    dsimp only
    rw [if_neg hn2, if_neg hn2, if_neg hj]
    rcases env.reposAll ("users/" ++ options.repo ++ "/repos") with e | rs <;> rfl

def envC9 : Env :=
  { labelsFirst := fun _ => .ok []
  , labelsAll := fun _ => .ok []
  , reposAll := fun _ => .ok []
  , write := fun _ _ => .ok "w" }

/-- C9 witness: the reconciliation fetch request carries `all = false`; the
source fetch and the repository listing both carry `all = true`. -/
theorem c9_witness :
    (checkRepo envC9 "acme" "w" [⟨"bug", "f00"⟩]).2.2.head? =
      some ⟨"repos/acme/w/labels", false, none⟩ ∧
    (run envC9 [⟨some "bug", none, some "f00"⟩] ⟨"acme/w", some "acme/src", ""⟩).trace.head? =
      some ⟨"repos/acme/src/labels", true, none⟩ ∧
    (run envC9 [⟨some "bug", none, some "f00"⟩] ⟨"acme", none, ""⟩).trace.head? =
      some ⟨"users/acme/repos", true, none⟩ := by
  refine ⟨?_, ?_, ?_⟩
  · exact (c9_pagination envC9 "acme" "w" [⟨"bug", "f00"⟩] [] ⟨"x", none, ""⟩ "s").1
  · exact (c9_pagination envC9 "acme" "w" [⟨"bug", "f00"⟩] [⟨some "bug", none, some "f00"⟩]
      ⟨"acme/w", some "acme/src", ""⟩ "acme/src").2.2.1 rfl (by decide)
  · exact (c9_pagination envC9 "acme" "w" [⟨"bug", "f00"⟩] [⟨some "bug", none, some "f00"⟩]
      ⟨"acme", none, ""⟩ "s").2.2.2 rfl rfl [⟨some "bug", none, some "f00"⟩]
      [⟨"bug", "f00"⟩] rfl (by decide)

/-- C10: a run mutates its caller-supplied arguments in place — in a no-source
run whose validation succeeds, every element of the passed labels array is
overwritten with a fresh normalized (name, color) object (name resolved
through the `label` alias, alias field gone, color hash-stripped) while the
options object is untouched; in a source run, the source field is deleted from
the passed options object before the recursion and its repo and token fields
are unchanged (the caller's labels array itself is not mutated there, the
merge happening on a fresh concatenated array). -/
theorem c10_in_place_mutation (env : Env) (labels fetched : List RawLabel)
    (options : Options) (stored : List RawLabel) (nlbls : List Label) (src : String) :
    (jsTruthy options.source = false → labels.isEmpty = false →
      normalizeLabels 0 labels = (stored, .ok nlbls) →
      (run env labels options).finalLabels = labels.map normalizedStored ∧
      (run env labels options).finalOptions = options) ∧
    (options.source = some src → src ≠ "" →
      env.labelsAll ("repos/" ++ src ++ "/labels") = .ok fetched →
      (run env labels options).finalOptions.source = none ∧
      (run env labels options).finalOptions.repo = options.repo ∧
      (run env labels options).finalOptions.token = options.token ∧
      (run env labels options).finalLabels = labels) := by
  constructor
  · intro hsf hne hnorm
    rw [run_no_source env labels options hne hsf]
    obtain ⟨hl, ho⟩ := runCore_frame env labels options
    refine ⟨?_, ho⟩
    rw [hl, hnorm]
    exact (normalizeLabels_ok 0 labels stored nlbls hnorm).1
  · intro hs hnz hfetch
    have hts : jsTruthy options.source = true := by
      rw [hs]
      exact bne_iff_ne.mpr hnz
    have hrun2 : (run env labels options).finalOptions = { options with source := none } ∧
        (run env labels options).finalLabels = labels := by
      unfold run
      rw [hts, hs]
      dsimp only [Option.getD_some]
      rw [if_neg (by simp), if_pos rfl, hfetch]
      exact ⟨rfl, rfl⟩
    refine ⟨?_, ?_, ?_, hrun2.2⟩ <;> rw [hrun2.1]

/-- C10 witness: normalization rewrites the passed array slot to the fresh
normalized object (alias field dropped, hash stripped) leaving the options
object intact, and a source run deletes exactly the source field. -/
theorem c10_witness :
    (run envC9 [⟨none, some "bug", some "#f00"⟩] ⟨"acme/w", none, "tkn"⟩).finalLabels =
      [⟨some "bug", none, some "f00"⟩] ∧
    (run envC9 [⟨none, some "bug", some "#f00"⟩] ⟨"acme/w", none, "tkn"⟩).finalOptions =
      ⟨"acme/w", none, "tkn"⟩ ∧
    (run envC9 [⟨some "bug", none, some "f00"⟩] ⟨"acme/w", some "acme/src", "tkn"⟩).finalOptions.source =
      none ∧
    (run envC9 [⟨some "bug", none, some "f00"⟩] ⟨"acme/w", some "acme/src", "tkn"⟩).finalOptions.repo =
      "acme/w" ∧
    (run envC9 [⟨some "bug", none, some "f00"⟩] ⟨"acme/w", some "acme/src", "tkn"⟩).finalOptions.token =
      "tkn" := by
  have h1 := (c10_in_place_mutation envC9 [⟨none, some "bug", some "#f00"⟩] []
    ⟨"acme/w", none, "tkn"⟩ [⟨some "bug", none, some "f00"⟩] [⟨"bug", "f00"⟩] "s").1
    rfl rfl rfl
  have h2 := (c10_in_place_mutation envC9 [⟨some "bug", none, some "f00"⟩] []
    ⟨"acme/w", some "acme/src", "tkn"⟩ [⟨some "bug", none, some "f00"⟩] [⟨"bug", "f00"⟩]
    "acme/src").2 rfl (by decide) rfl
  exact ⟨by rw [h1.1]; rfl, h1.2, h2.1, h2.2.1, h2.2.2.1⟩

/-- C8 witness: `"#f00"` and `"f00"` normalize to the identical stored value,
and normalizing `"#f00"` twice equals normalizing it once. -/
theorem c8_witness :
    normalizeColor ("#" ++ "f00") = normalizeColor "f00" ∧
    normalizeColor (normalizeColor "#f00") = normalizeColor "#f00" :=
  ⟨(c8_amended "#f00" "f00" (by decide) (by decide)).2.1,
   (c8_amended "#f00" "f00" (by decide) (by decide)).2.2⟩
